import Mathlib

/-!
Shallow embedding of the aggregation, streak, trend, goals, token and
error-handling core of `usage.mjs` (claude-meter-cli).

Modelling conventions:
* A JS `Date` value is an integer timestamp in milliseconds (type `Int`).
* A `YYYY-MM-DD` date string is represented by its UTC day number, so that
  `formatDate` (which takes the UTC calendar day via `toISOString`) becomes
  `dayOf`, and `new Date(dateString)` (which parses the string at UTC
  midnight) becomes multiplication by `DAY_MS`.  Date arithmetic such as
  `setDate(getDate() - 7)` is modelled as uniform 24-hour days (no DST).
* Numeric record fields that may be missing in the JSON input are `Option`
  valued; the JS idiom `x.field || 0` becomes `Option.getD 0`, and a JS
  comparison `x.field > 0` (false for `undefined`) becomes
  `0 < field.getD 0`.
* Effects (the HTTP fetch outcome, the result of reading the stats file)
  are passed as explicit parameters, so the functions stay pure.
-/

/-- Milliseconds in one calendar day. -/
def DAY_MS : Int := 86400000

/-- UTC calendar day number of a millisecond timestamp.  Models
`formatDate(date)`, i.e. `date.toISOString().split(...)[0]`, which yields the
UTC calendar day. -/
def dayOf (t : Int) : Int := t / DAY_MS

/-- One entry of `data.dailyActivity`.  The numeric fields may be absent in
the JSON, hence `Option`. -/
structure DailyActivityRecord where
  date : Int
  messageCount : Option Nat
  sessionCount : Option Nat
  toolCallCount : Option Nat

deriving instance DecidableEq for DailyActivityRecord

/-- Result shape of `aggregateStats`. -/
structure AggregatedStats where
  messages : Nat
  sessions : Nat
  toolCalls : Nat
  activeDays : Nat

deriving instance DecidableEq for AggregatedStats

/-- `aggregateStats(data)` from `usage.mjs`:
each field is `data.reduce((sum, d) => sum + (d.field || 0), 0)`, and
`activeDays` is `data.filter(d => d.messageCount > 0).length`. -/
def aggregateStats (data : List DailyActivityRecord) : AggregatedStats :=
  { messages := data.foldl (fun sum d => sum + d.messageCount.getD 0) 0
    sessions := data.foldl (fun sum d => sum + d.sessionCount.getD 0) 0
    toolCalls := data.foldl (fun sum d => sum + d.toolCallCount.getD 0) 0
    activeDays := (data.filter (fun d => decide (0 < d.messageCount.getD 0))).length }

/-- The `--today` subset used by `printJSON` (and `printCompact`):
`activity.filter(d => d.date === todayStr)` with `todayStr = formatDate(now)`. -/
def todayRecords (activity : List DailyActivityRecord) (now : Int) : List DailyActivityRecord :=
  activity.filter (fun d => decide (d.date = dayOf now))

/-- `getLast7Days(activity)` from `usage.mjs`:
`cutoff` is the current instant minus 7 days (`setDate(getDate() - 7)` keeps
the time of day), and a record passes iff `new Date(d.date) >= cutoff`,
i.e. iff the UTC midnight of its date is at or after `now - 7 days`. -/
def getLast7Days (activity : List DailyActivityRecord) (now : Int) : List DailyActivityRecord :=
  activity.filter (fun d => decide (now - 7 * DAY_MS ≤ d.date * DAY_MS))

/-- Stable insertion step for a descending sort by `date`:
the new element goes in front of the first element whose date is `≤` its own,
so among equal dates earlier input elements stay first. -/
def insertByDateDesc (a : DailyActivityRecord) :
    List DailyActivityRecord → List DailyActivityRecord
  | [] => [a]
  | b :: rest =>
    if b.date ≤ a.date then a :: b :: rest else b :: insertByDateDesc a rest

/-- Stable descending sort by `date`, modelling
`[...activity].sort((a, b) => b.date.localeCompare(a.date))` (JS sort is
stable, and `localeCompare` on equal-length ISO date strings orders them
chronologically). -/
def sortByDateDesc : List DailyActivityRecord → List DailyActivityRecord
  | [] => []
  | a :: rest => insertByDateDesc a (sortByDateDesc rest)

/-- Loop body of `calculateStreak`.  `fuel` is the number of remaining
iterations (the JS loop runs while `i < sorted.length`), `i` the current day
offset, `streak` the accumulator.  Branches mirror the source:
found-with-positive-count increments; otherwise offset 0 with the expected
day equal to today continues without incrementing; otherwise the loop breaks. -/
def streakLoop (sorted : List DailyActivityRecord) (today : Int) :
    Nat → Nat → Nat → Nat
  | 0, _, streak => streak
  | fuel + 1, i, streak =>
    match sorted.find? (fun d => decide (d.date = today - i)) with
    | some day =>
      if 0 < day.messageCount.getD 0 then
        streakLoop sorted today fuel (i + 1) (streak + 1)
      else if i = 0 ∧ today - (i : Int) = today then
        streakLoop sorted today fuel (i + 1) streak
      else streak
    | none =>
      if i = 0 ∧ today - (i : Int) = today then
        streakLoop sorted today fuel (i + 1) streak
      else streak

/-- `calculateStreak(activity)` from `usage.mjs`, with the current instant
made explicit as `now`.  Sorts descending by date, then walks day offsets
`i = 0, 1, ...` while `i < sorted.length`, looking up the record whose date
equals `formatDate(now - i days)`. -/
def calculateStreak (activity : List DailyActivityRecord) (now : Int) : Nat :=
  streakLoop (sortByDateDesc activity) (dayOf now) (sortByDateDesc activity).length 0 0

/-- The four distinct strings `getTrend` can return: a space when there is no
previous data, a green up arrow, a red down arrow, and a dim right arrow. -/
inductive Trend where
  | blank
  | up
  | down
  | steady

deriving instance DecidableEq for Trend

/-- A trend marker is neutral when it is neither the up nor the down arrow. -/
def trendNeutral : Trend → Bool
  | Trend.up => false
  | Trend.down => false
  | _ => true

/-- `getTrend(current, previous)` from `usage.mjs`, with the JS number
arithmetic modelled exactly over `ℚ`:
returns the space when `previous === 0`, otherwise compares
`((current - previous) / previous) * 100` against `10` and `-10`. -/
def getTrend (current previous : Nat) : Trend :=
  if previous = 0 then Trend.blank
  else
    if (10 : ℚ) < ((current : ℚ) - (previous : ℚ)) / (previous : ℚ) * 100 then Trend.up
    else if ((current : ℚ) - (previous : ℚ)) / (previous : ℚ) * 100 < (-10 : ℚ) then Trend.down
    else Trend.steady

/-- Displayed goal progress: the rounded clamped percentage and whether the
goal is met (the source shows a check mark exactly when `current >= goal`). -/
structure GoalProgress where
  percent : Int
  met : Bool

deriving instance DecidableEq for GoalProgress

/-- The per-goal computation inside `printGoalsProgress` in `usage.mjs`:
`pct = Math.min((current / goal) * 100, 100)` over JS numbers (modelled over
`ℚ`), the displayed percentage is `Math.round(pct)` (round half towards
positive infinity, which on `ℚ` is `round`), and the met flag is
`current >= goal`.  Applied once to the daily pair and once to the weekly
pair. -/
def goalProgress (current goal : Nat) : GoalProgress :=
  { percent := round (min ((current : ℚ) / (goal : ℚ) * 100) 100)
    met := decide (goal ≤ current) }

/-- One entry of `data.dailyModelTokens`: a date plus a JS object mapping
model names to token counts, modelled as an association list in key
insertion order. -/
structure DailyModelTokenRecord where
  date : Int
  tokensByModel : List (String × Nat)

deriving instance DecidableEq for DailyModelTokenRecord

/-- Result shape of `aggregateTokens`. -/
structure TokenAggregate where
  total : Nat
  byModel : List (String × Nat)

deriving instance DecidableEq for TokenAggregate

/-- One update `totals[model] = (totals[model] || 0) + tokens` on a JS object
modelled as an association list: an existing key is updated in place, a new
key is appended at the end (JS object key insertion order). -/
def bump : List (String × Nat) → String → Nat → List (String × Nat)
  | [], model, tokens => [(model, tokens)]
  | (k, v) :: rest, model, tokens =>
    if k = model then (k, v + tokens) :: rest
    else (k, v) :: bump rest model tokens

/-- Value of a key in the modelled JS object (`0` when absent). -/
def getTot : List (String × Nat) → String → Nat
  | [], _ => 0
  | (k, v) :: rest, m => if k = m then v else getTot rest m

/-- The `filtered` intermediate of `aggregateTokens`:
`tokenData.filter(d => dateSet.has(d.date))` where
`dateSet = new Set(dates.map(d => d.date))`. -/
def tokensFiltered (tokenData : List DailyModelTokenRecord)
    (dates : List DailyActivityRecord) : List DailyModelTokenRecord :=
  tokenData.filter (fun d => decide (d.date ∈ dates.map (fun x => x.date)))

/-- The `totals` intermediate of `aggregateTokens`: for each filtered day and
each `[model, tokens]` entry of `day.tokensByModel || {}`, perform
`totals[model] = (totals[model] || 0) + tokens`. -/
def tokensTotals (tokenData : List DailyModelTokenRecord)
    (dates : List DailyActivityRecord) : List (String × Nat) :=
  (tokensFiltered tokenData dates).foldl
    (fun acc day => day.tokensByModel.foldl (fun a kv => bump a kv.1 kv.2) acc) []

/-- `aggregateTokens(tokenData, dates)` from `usage.mjs`:
`total` is `Object.values(totals).reduce((a, b) => a + b, 0)` and `byModel`
is the `totals` object itself. -/
def aggregateTokens (tokenData : List DailyModelTokenRecord)
    (dates : List DailyActivityRecord) : TokenAggregate :=
  { total := ((tokensTotals tokenData dates).map (fun kv => kv.2)).foldl (fun a b => a + b) 0
    byModel := tokensTotals tokenData dates }

/-- Discriminant of the stored credential (`auth.type`). -/
inductive AuthType where
  | oauth
  | apiKey

deriving instance DecidableEq for AuthType

/-- Stored credential, as read by `loadAuth`. -/
structure Auth where
  type : AuthType
  accessToken : String

deriving instance DecidableEq for Auth

/-- One quota limit block of the usage endpoint response. -/
structure QuotaLimit where
  utilization : Nat
  resets_at : Int

deriving instance DecidableEq for QuotaLimit

/-- Body shape returned by the usage endpoint. -/
structure QuotaSnapshot where
  five_hour : Option QuotaLimit
  seven_day : Option QuotaLimit

deriving instance DecidableEq for QuotaSnapshot

/-- Outcome of the single `fetch` call inside `fetchQuota`: either the
transport throws, or a response arrives with an ok flag (2xx status) and a
body that parses to a snapshot or fails to parse (`none`). -/
inductive FetchOutcome where
  | transportError
  | response (ok : Bool) (body : Option QuotaSnapshot)

deriving instance DecidableEq for FetchOutcome

/-- `fetchQuota(auth)` from `usage.mjs`, with the network effect passed as an
explicit `outcome`.  Returns `null` unless a usable OAuth credential is
present; inside the `try`, a thrown transport error or a failed body parse is
caught and yields `null`, and a non-ok response falls through to `null`. -/
def fetchQuota (auth : Option Auth) (outcome : FetchOutcome) : Option QuotaSnapshot :=
  match auth with
  | none => none
  | some a =>
    if a.type = AuthType.oauth then
      match outcome with
      | FetchOutcome.transportError => none
      | FetchOutcome.response ok body => if ok then body else none
    else none

/-- Parsed contents of the stats cache file. -/
structure StatsData where
  dailyActivity : List DailyActivityRecord
  dailyModelTokens : List DailyModelTokenRecord
  lastComputedDate : Int

/-- Whether the process keeps running or exits with a code. -/
inductive ProcessStatus where
  | continues
  | exits (code : Nat)

deriving instance DecidableEq for ProcessStatus

/-- Observable outcome of one render pass (or of the startup check):
process lifetime effect plus whether an error message was printed. -/
structure RenderResult where
  status : ProcessStatus
  errorReported : Bool

deriving instance DecidableEq for RenderResult

/-- Control flow of `render()` in `usage.mjs`: the whole body runs inside
`try`; reading/parsing the stats file is the fallible step (passed here as an
`Except`).  On failure the `catch` prints the error and runs
`process.exit(1)` only when not in watch mode. -/
def render (watchMode : Bool) (readStats : Except String StatsData) : RenderResult :=
  match readStats with
  | Except.ok _ => { status := ProcessStatus.continues, errorReported := false }
  | Except.error _ =>
    { status := if watchMode then ProcessStatus.continues else ProcessStatus.exits 1
      errorReported := true }

/-- Startup precondition check in `main()`: if the stats cache file does not
exist, print guidance and `process.exit(1)`. -/
def startupCheck (statsFileExists : Bool) : RenderResult :=
  if statsFileExists then { status := ProcessStatus.continues, errorReported := false }
  else { status := ProcessStatus.exits 1, errorReported := true }

/-- Watch-mode scheduler: every trigger (timer tick, file change, refresh
key) invokes `render` with whatever the stats file read yields at that
moment; the loop stops early only if a render exits the process. -/
def watchLoop : List (Except String StatsData) → List RenderResult
  | [] => []
  | r :: rs =>
    match (render true r).status with
    | ProcessStatus.continues => render true r :: watchLoop rs
    | ProcessStatus.exits _ => [render true r]

/-! ## Helper lemmas about list sums -/

/-- Running a sum-fold from an arbitrary accumulator shifts the result. -/
theorem foldl_add_shift (f : DailyActivityRecord → Nat) :
    ∀ (l : List DailyActivityRecord) (a : Nat),
      l.foldl (fun s d => s + f d) a = a + l.foldl (fun s d => s + f d) 0 := by
  intro l
  induction l with
  | nil => intro a; simp
  | cons d rest ih =>
    intro a
    simp only [List.foldl_cons]
    rw [ih (a + f d), ih (0 + f d)]
    omega

/-- Cons step for the sum-fold. -/
theorem foldl_add_cons (f : DailyActivityRecord → Nat) (d : DailyActivityRecord)
    (l : List DailyActivityRecord) :
    (d :: l).foldl (fun s d => s + f d) 0 = f d + l.foldl (fun s d => s + f d) 0 := by
  simp only [List.foldl_cons]
  rw [foldl_add_shift f l (0 + f d)]
  omega

/-- Summing over a filter by a weaker predicate dominates summing over a
filter by a stronger one. -/
theorem foldl_filter_mono (f : DailyActivityRecord → Nat)
    (p q : DailyActivityRecord → Bool)
    (hpq : ∀ d, p d = true → q d = true) :
    ∀ l : List DailyActivityRecord,
      (l.filter p).foldl (fun s d => s + f d) 0 ≤
        (l.filter q).foldl (fun s d => s + f d) 0 := by
  intro l
  induction l with
  | nil => simp
  | cons d rest ih =>
    by_cases hp : p d = true
    · have hq := hpq d hp
      simp only [List.filter_cons, hp, hq, if_true]
      rw [foldl_add_cons, foldl_add_cons]
      omega
    · have hp' : p d = false := by
        revert hp; cases p d <;> simp
      by_cases hq : q d = true
      · simp only [List.filter_cons, hp', hq, if_true, Bool.false_eq_true, if_false]
        rw [foldl_add_cons]
        omega
      · have hq' : q d = false := by
          revert hq; cases q d <;> simp
        simp only [List.filter_cons, hp', hq', Bool.false_eq_true, if_false]
        exact ih

/-! ## Claim C3 -/

/-- Claim C3: for every history and reference time, the messages field of the
aggregate of the last-7-days subset is at least the messages field of the
aggregate of the today subset; the today filter only keeps records whose date
is the calendar day of `now`, and every such record also passes the 7-day
filter. -/
theorem last7_messages_ge_today_messages (activity : List DailyActivityRecord) (now : Int) :
    (aggregateStats (todayRecords activity now)).messages ≤
      (aggregateStats (getLast7Days activity now)).messages := by
  have key : ∀ d : DailyActivityRecord, decide (d.date = dayOf now) = true →
      decide (now - 7 * DAY_MS ≤ d.date * DAY_MS) = true := by
    intro d hd
    simp only [decide_eq_true_eq] at hd ⊢
    rw [hd]
    unfold dayOf DAY_MS
    omega
  simpa [aggregateStats, todayRecords, getLast7Days] using
    foldl_filter_mono (fun d => d.messageCount.getD 0) _ _ key activity

/-! ## Claim C6 -/

/-- Claim C6: `aggregateStats` is a total function (it never raises); on the
empty subset it returns all-zero stats with `activeDays = 0`; a missing
numeric field contributes zero to its sum (and a record with a missing
`messageCount` is not an active day); and `activeDays` counts exactly the
records with a positive message count. -/
theorem aggregateStats_defensive :
    aggregateStats [] = { messages := 0, sessions := 0, toolCalls := 0, activeDays := 0 } ∧
    (∀ d rest, d.messageCount = none →
      (aggregateStats (d :: rest)).messages = (aggregateStats rest).messages ∧
        (aggregateStats (d :: rest)).activeDays = (aggregateStats rest).activeDays) ∧
    (∀ d rest, d.sessionCount = none →
      (aggregateStats (d :: rest)).sessions = (aggregateStats rest).sessions) ∧
    (∀ d rest, d.toolCallCount = none →
      (aggregateStats (d :: rest)).toolCalls = (aggregateStats rest).toolCalls) ∧
    (∀ data, (aggregateStats data).activeDays =
      data.countP (fun d => decide (0 < d.messageCount.getD 0))) := by
  refine ⟨rfl, ?_, ?_, ?_, ?_⟩
  · intro d rest h
    constructor
    · simp only [aggregateStats]
      rw [foldl_add_cons]
      simp [h]
    · simp [aggregateStats, List.filter_cons, h]
  · intro d rest h
    simp only [aggregateStats]
    rw [foldl_add_cons]
    simp [h]
  · intro d rest h
    simp only [aggregateStats]
    rw [foldl_add_cons]
    simp [h]
  · intro data
    simp [aggregateStats, List.countP_eq_length_filter]

/-- Witness for claim C6: a record whose numeric fields are all missing
contributes nothing to the messages sum and is not an active day. -/
theorem aggregateStats_defensive_witness :
    (aggregateStats
        ({ date := 0, messageCount := none, sessionCount := none,
           toolCallCount := none } :: [])).messages = (aggregateStats []).messages ∧
      (aggregateStats
        ({ date := 0, messageCount := none, sessionCount := none,
           toolCallCount := none } :: [])).activeDays = (aggregateStats []).activeDays :=
  aggregateStats_defensive.2.1 _ [] rfl

/-! ## Claim C1 -/

/-- Claim C1 (code-bug evidence): the loop in `calculateStreak` runs at most
`sorted.length` iterations, and the skipped offset 0 (today pending) consumes
one of them.  With a history of exactly the K calendar days immediately
preceding `now` (all with positive message counts) and no record for today,
the function returns K - 1 instead of the K required by the claim: K = 1
yields 0 and K = 2 yields 1.  For contrast, when the today record is present,
two consecutive active days yield 2. -/
theorem calculateStreak_dense_history_undercounts :
    calculateStreak
        [{ date := -1, messageCount := some 5, sessionCount := none, toolCallCount := none }]
        1234 = 0 ∧
    calculateStreak
        [{ date := -1, messageCount := some 5, sessionCount := none, toolCallCount := none },
         { date := -2, messageCount := some 4, sessionCount := none, toolCallCount := none }]
        1234 = 1 ∧
    calculateStreak
        [{ date := 0, messageCount := some 3, sessionCount := none, toolCallCount := none },
         { date := -1, messageCount := some 5, sessionCount := none, toolCallCount := none }]
        1234 = 2 := by
  decide

/-! ## Claim C2 -/

/-- Claim C2 (counterexample): a record whose calendar date is exactly 7 days
before the day of `now` satisfies the claimed inclusive calendar-day bound
`date ≥ dayOf now - 7`, yet `getLast7Days` excludes it whenever `now` is not
exactly at a UTC midnight (here one millisecond past midnight): the code
compares the UTC midnight of the record date against `now - 7 days`, which
makes the lower bound exclusive at day granularity. -/
theorem getLast7Days_drops_seventh_day_back :
    dayOf (7 * DAY_MS + 1) - 7 ≤ (0 : Int) ∧
    getLast7Days
        [{ date := 0, messageCount := some 1, sessionCount := none, toolCallCount := none }]
        (7 * DAY_MS + 1) = [] := by
  decide

/-- Claim C2 (amended): `getLast7Days` keeps exactly the records whose UTC
midnight is at or after `now - 7 days`; at calendar-day granularity this
means date `≥ dayOf now - 6` whenever `now` is not exactly at a UTC midnight,
and date `≥ dayOf now - 7` in the midnight edge case. -/
theorem getLast7Days_mem_amended (activity : List DailyActivityRecord) (now : Int)
    (d : DailyActivityRecord) :
    (now % DAY_MS ≠ 0 →
      (d ∈ getLast7Days activity now ↔ d ∈ activity ∧ dayOf now - 6 ≤ d.date)) ∧
    (now % DAY_MS = 0 →
      (d ∈ getLast7Days activity now ↔ d ∈ activity ∧ dayOf now - 7 ≤ d.date)) := by
  unfold getLast7Days dayOf DAY_MS
  constructor <;> intro h <;> rw [List.mem_filter] <;> simp only [decide_eq_true_eq] <;>
    constructor <;> rintro ⟨h1, h2⟩ <;> exact ⟨h1, by omega⟩

/-- Witness for the amended claim C2, at a time one millisecond past the
midnight opening day 7: the only record (dated day 1) is six days back, and
membership reduces to the amended calendar-day bound. -/
theorem getLast7Days_mem_amended_witness :
    { date := 1, messageCount := some 1, sessionCount := none,
        toolCallCount := none } ∈
      getLast7Days
        [{ date := 1, messageCount := some 1, sessionCount := none, toolCallCount := none }]
        (7 * DAY_MS + 1) ↔
    ({ date := 1, messageCount := some 1, sessionCount := none,
        toolCallCount := none } : DailyActivityRecord) ∈
      [{ date := 1, messageCount := some 1, sessionCount := none,
          toolCallCount := none }] ∧
      dayOf (7 * DAY_MS + 1) - 6 ≤ (1 : Int) :=
  (getLast7Days_mem_amended _ _ _).1 (by decide)

/-! ## Claim C4 -/

/-- Claim C4: `getTrend` returns the blank (neutral) marker when there is no
previous data; otherwise, over exact arithmetic, the up arrow exactly when
the current total exceeds the previous by more than 10 percent
(`11 * previous < 10 * current`), the down arrow exactly when it is more than
10 percent below (`10 * current < 9 * previous`), and the neutral right arrow
otherwise; in particular the four example pairs of the claim behave as
stated. -/
theorem getTrend_spec :
    (∀ current previous : Nat,
      getTrend current previous =
        (if previous = 0 then Trend.blank
         else if 11 * previous < 10 * current then Trend.up
         else if 10 * current < 9 * previous then Trend.down
         else Trend.steady)) ∧
    trendNeutral (getTrend 100 100) = true ∧
    trendNeutral (getTrend 95 100) = true ∧
    getTrend 111 100 = Trend.up ∧
    getTrend 89 100 = Trend.down ∧
    (∀ current, getTrend current 0 = Trend.blank ∧
      trendNeutral (getTrend current 0) = true) := by
  refine ⟨?_, ?_, ?_, ?_, ?_, ?_⟩
  · intro c p
    by_cases hp : p = 0
    · simp [getTrend, hp]
    · have hp0 : (0 : ℚ) < p := by
        exact_mod_cast Nat.pos_of_ne_zero hp
      have h1 : ((10 : ℚ) < ((c : ℚ) - (p : ℚ)) / (p : ℚ) * 100) ↔ 11 * p < 10 * c := by
        rw [div_mul_eq_mul_div, lt_div_iff₀ hp0]
        constructor
        · intro h
          have : (11 * p : ℚ) < 10 * c := by linarith
          exact_mod_cast this
        · intro h
          have : (11 * p : ℚ) < 10 * c := by exact_mod_cast h
          linarith
      have h2 : (((c : ℚ) - (p : ℚ)) / (p : ℚ) * 100 < -10) ↔ 10 * c < 9 * p := by
        rw [div_mul_eq_mul_div, div_lt_iff₀ hp0]
        constructor
        · intro h
          have : (10 * c : ℚ) < 9 * p := by linarith
          exact_mod_cast this
        · intro h
          have : (10 * c : ℚ) < 9 * p := by exact_mod_cast h
          linarith
      rw [getTrend, if_neg hp, if_neg hp]
      simp only [h1, h2]
  · norm_num [getTrend, trendNeutral]
  · norm_num [getTrend, trendNeutral]
  · norm_num [getTrend]
  · norm_num [getTrend]
  · intro current
    constructor <;> simp [getTrend, trendNeutral]

/-! ## Claim C5 -/

/-- Claim C5: for every current total and positive goal, the displayed goal
percentage equals `min 100 (round (100 * current / goal))` (clamped, never
above 100), the met flag is exactly `current ≥ goal`, and the two boundary
examples of the claim hold; the source applies this same computation to the
daily pair and to the weekly pair. -/
theorem goalProgress_spec (current goal : Nat) (hg : 0 < goal) :
    ((goalProgress current goal).percent = min 100 (round ((100 * current : ℚ) / goal)) ∧
      ((goalProgress current goal).met = true ↔ goal ≤ current)) ∧
    goalProgress 0 100 = { percent := 0, met := false } ∧
    goalProgress 150 100 = { percent := 100, met := true } := by
  have h100 : round (100 : ℚ) = 100 := by norm_num [round_eq]
  refine ⟨⟨?_, ?_⟩, ?_, ?_⟩
  · have hcomm : ((current : ℚ) / (goal : ℚ) * 100) = (100 * current : ℚ) / goal := by
      ring
    simp only [goalProgress, hcomm]
    rcases le_total ((100 * current : ℚ) / goal) 100 with h | h
    · rw [min_eq_left h]
      have hr : round ((100 * current : ℚ) / goal) ≤ 100 := by
        rw [← h100, round_eq, round_eq]
        exact Int.floor_le_floor (by linarith)
      rw [min_eq_right hr]
    · rw [min_eq_right h, h100]
      have hr : (100 : ℤ) ≤ round ((100 * current : ℚ) / goal) := by
        rw [← h100, round_eq, round_eq]
        exact Int.floor_le_floor (by linarith)
      rw [min_eq_left hr]
  · simp [goalProgress]
  · rw [goalProgress, GoalProgress.mk.injEq]
    constructor
    · norm_num [round_eq]
    · decide
  · rw [goalProgress, GoalProgress.mk.injEq]
    constructor
    · norm_num [round_eq]
    · decide

/-- Witness for claim C5 at the clamping boundary pair (150, 100). -/
theorem goalProgress_spec_witness :
    ((goalProgress 150 100).percent = min 100 (round ((100 * 150 : ℚ) / 100)) ∧
      ((goalProgress 150 100).met = true ↔ 100 ≤ 150)) ∧
    goalProgress 0 100 = { percent := 0, met := false } ∧
    goalProgress 150 100 = { percent := 100, met := true } :=
  goalProgress_spec 150 100 (by decide)

/-! ## Association-list lemmas for the token object -/

/-- Reading a key after one `bump`: the bumped key gains the added tokens,
every other key is unchanged. -/
theorem getTot_bump (acc : List (String × Nat)) (model : String) (tokens : Nat) (m : String) :
    getTot (bump acc model tokens) m =
      if model = m then getTot acc m + tokens else getTot acc m := by
  induction acc with
  | nil => by_cases h : model = m <;> simp [bump, getTot, h]
  | cons kv rest ih =>
    obtain ⟨k, v⟩ := kv
    by_cases hk : k = model
    · subst hk
      by_cases hm : k = m
      · subst hm
        simp [bump, getTot]
      · simp [bump, getTot, hm]
    · by_cases hm : k = m
      · subst hm
        have hmk : model ≠ k := fun h => hk h.symm
        simp [bump, getTot, hk, hmk]
      · simp [bump, getTot, hk, hm, ih]

/-- Reading a key after folding `bump` over the entries of one day:
the key accumulates exactly the token counts of the entries bearing it. -/
theorem getTot_foldl_entries (entries : List (String × Nat)) (m : String) :
    ∀ acc, getTot (entries.foldl (fun a kv => bump a kv.1 kv.2) acc) m =
      getTot acc m +
        ((entries.filter (fun kv => decide (kv.1 = m))).map (fun kv => kv.2)).sum := by
  induction entries with
  | nil => intro acc; simp
  | cons kv es ih =>
    intro acc
    simp only [List.foldl_cons]
    rw [ih, getTot_bump]
    by_cases h : kv.1 = m
    · simp [List.filter_cons, h]
      omega
    · simp [List.filter_cons, h]

/-- Reading a key after folding the per-day entry fold over a list of days:
the key accumulates its per-day sums. -/
theorem getTot_foldl_days (days : List DailyModelTokenRecord) (m : String) :
    ∀ acc,
      getTot (days.foldl
          (fun acc day => day.tokensByModel.foldl (fun a kv => bump a kv.1 kv.2) acc) acc) m =
        getTot acc m +
          (days.map (fun day =>
            ((day.tokensByModel.filter (fun kv => decide (kv.1 = m))).map
              (fun kv => kv.2)).sum)).sum := by
  induction days with
  | nil => intro acc; simp
  | cons day ds ih =>
    intro acc
    simp only [List.foldl_cons, List.map_cons, List.sum_cons]
    rw [ih, getTot_foldl_entries]
    omega

/-- Key membership after one `bump`: the keys are the old keys plus the
bumped key. -/
theorem mem_keys_bump (model : String) (tokens : Nat) (m : String) :
    ∀ acc : List (String × Nat),
      (m ∈ (bump acc model tokens).map (fun kv => kv.1) ↔
        m ∈ acc.map (fun kv => kv.1) ∨ m = model) := by
  intro acc
  induction acc with
  | nil => simp [bump]
  | cons kv rest ih =>
    obtain ⟨k, v⟩ := kv
    by_cases hk : k = model
    · subst hk
      simp only [bump, if_true, List.map_cons]
      constructor
      · intro h; exact Or.inl h
      · rintro (h | rfl)
        · exact h
        · simp
    · simp only [bump, if_neg hk, List.map_cons, List.mem_cons, ih]
      tauto

/-- A `bump` preserves distinctness of the keys. -/
theorem nodup_keys_bump (model : String) (tokens : Nat) :
    ∀ acc : List (String × Nat), (acc.map (fun kv => kv.1)).Nodup →
      ((bump acc model tokens).map (fun kv => kv.1)).Nodup := by
  intro acc
  induction acc with
  | nil => intro _; simp [bump]
  | cons kv rest ih =>
    obtain ⟨k, v⟩ := kv
    intro h
    simp only [List.map_cons, List.nodup_cons] at h
    obtain ⟨hknotin, hrest⟩ := h
    by_cases hk : k = model
    · subst hk
      simp only [bump, if_true, List.map_cons, List.nodup_cons]
      exact ⟨hknotin, hrest⟩
    · simp only [bump, if_neg hk, List.map_cons, List.nodup_cons]
      constructor
      · rw [mem_keys_bump]
        rintro (hmem | rfl)
        · exact hknotin hmem
        · exact hk rfl
      · exact ih hrest

/-- Folding `bump` over the entries of one day preserves key distinctness. -/
theorem nodup_keys_foldl_entries (entries : List (String × Nat)) :
    ∀ acc : List (String × Nat), (acc.map (fun kv => kv.1)).Nodup →
      ((entries.foldl (fun a kv => bump a kv.1 kv.2) acc).map (fun kv => kv.1)).Nodup := by
  induction entries with
  | nil => intro acc h; exact h
  | cons kv es ih =>
    intro acc h
    simp only [List.foldl_cons]
    exact ih _ (nodup_keys_bump kv.1 kv.2 acc h)

/-- Folding the per-day entry fold over a list of days preserves key
distinctness. -/
theorem nodup_keys_foldl_days (days : List DailyModelTokenRecord) :
    ∀ acc : List (String × Nat), (acc.map (fun kv => kv.1)).Nodup →
      ((days.foldl
          (fun acc day => day.tokensByModel.foldl (fun a kv => bump a kv.1 kv.2) acc)
          acc).map (fun kv => kv.1)).Nodup := by
  induction days with
  | nil => intro acc h; exact h
  | cons day ds ih =>
    intro acc h
    simp only [List.foldl_cons]
    exact ih _ (nodup_keys_foldl_entries day.tokensByModel acc h)

/-- Folding addition over a list of naturals is its sum. -/
theorem foldl_add_eq_sum (l : List Nat) : ∀ a, l.foldl (fun x y => x + y) a = a + l.sum := by
  induction l with
  | nil => intro a; simp
  | cons x xs ih =>
    intro a
    simp only [List.foldl_cons, List.sum_cons]
    rw [ih]
    omega

/-! ## Claim C7 -/

/-- Claim C7: `aggregateTokens` is scoped to the date subset: prepending a
token record whose date is absent from the activity subset leaves the whole
aggregate unchanged, and the accumulated count of any model equals the sum,
over exactly the token records whose date appears in the subset, of the token
counts that day lists for that model (zero on days where the model is
absent). -/
theorem aggregateTokens_scoped (tokenData : List DailyModelTokenRecord)
    (dates : List DailyActivityRecord) (t : DailyModelTokenRecord) (m : String) :
    (t.date ∉ dates.map (fun x => x.date) →
      aggregateTokens (t :: tokenData) dates = aggregateTokens tokenData dates) ∧
    getTot (aggregateTokens tokenData dates).byModel m =
      ((tokenData.filter (fun d => decide (d.date ∈ dates.map (fun x => x.date)))).map
        (fun day =>
          ((day.tokensByModel.filter (fun kv => decide (kv.1 = m))).map
            (fun kv => kv.2)).sum)).sum := by
  constructor
  · intro h
    have hf : tokensFiltered (t :: tokenData) dates = tokensFiltered tokenData dates := by
      have h2 : decide (t.date ∈ dates.map (fun x => x.date)) = false := by
        simpa using h
      unfold tokensFiltered
      simp only [List.filter_cons]
      rw [h2]
      simp
    simp [aggregateTokens, tokensTotals, hf]
  · show getTot (tokensTotals tokenData dates) m = _
    rw [tokensTotals, getTot_foldl_days]
    simp [getTot, tokensFiltered]

/-- Witness for claim C7: with activity dates 1 and 2, a token record dated 3
is excluded entirely, even alongside token records dated 1 and 2. -/
theorem aggregateTokens_scoped_witness :
    aggregateTokens
        [{ date := 3, tokensByModel := [("opus", 7)] },
         { date := 1, tokensByModel := [("opus", 4)] },
         { date := 2, tokensByModel := [("haiku", 2)] }]
        [{ date := 1, messageCount := some 1, sessionCount := none, toolCallCount := none },
         { date := 2, messageCount := some 1, sessionCount := none, toolCallCount := none }] =
      aggregateTokens
        [{ date := 1, tokensByModel := [("opus", 4)] },
         { date := 2, tokensByModel := [("haiku", 2)] }]
        [{ date := 1, messageCount := some 1, sessionCount := none, toolCallCount := none },
         { date := 2, messageCount := some 1, sessionCount := none, toolCallCount := none }] :=
  (aggregateTokens_scoped _ _ _ "opus").1 (by decide)

/-! ## Claim C10 -/

/-- Claim C10: the aggregate returned by `aggregateTokens` is internally
consistent: its overall total is exactly the sum of the per-model totals in
`byModel`, and the model keys of `byModel` are pairwise distinct, so that sum
is the sum over the models of the mapping. -/
theorem aggregateTokens_total_invariant (tokenData : List DailyModelTokenRecord)
    (dates : List DailyActivityRecord) :
    (aggregateTokens tokenData dates).total =
      ((aggregateTokens tokenData dates).byModel.map (fun kv => kv.2)).sum ∧
    ((aggregateTokens tokenData dates).byModel.map (fun kv => kv.1)).Nodup := by
  constructor
  · show ((tokensTotals tokenData dates).map (fun kv => kv.2)).foldl (fun a b => a + b) 0 =
      ((tokensTotals tokenData dates).map (fun kv => kv.2)).sum
    rw [foldl_add_eq_sum]
    omega
  · show ((tokensTotals tokenData dates).map (fun kv => kv.1)).Nodup
    rw [tokensTotals]
    exact nodup_keys_foldl_days _ [] (by simp)

/-! ## Claim C8 -/

/-- Claim C8: `fetchQuota` never lets a failure escape: it is a total
function of the credential and the fetch outcome; a transport failure or a
non-2xx response always yields the absent result (`none`), and any present
result can only come from an OAuth credential together with a 2xx response
whose body parsed. -/
theorem fetchQuota_never_throws (auth : Option Auth) (outcome : FetchOutcome) :
    (fetchQuota auth FetchOutcome.transportError = none) ∧
    (∀ body, fetchQuota auth (FetchOutcome.response false body) = none) ∧
    (∀ q, fetchQuota auth outcome = some q →
      ∃ a, auth = some a ∧ a.type = AuthType.oauth ∧
        outcome = FetchOutcome.response true (some q)) := by
  refine ⟨?_, ?_, ?_⟩
  · cases auth with
    | none => rfl
    | some a =>
      simp only [fetchQuota]
      by_cases h : a.type = AuthType.oauth <;> simp [h]
  · intro body
    cases auth with
    | none => rfl
    | some a =>
      simp only [fetchQuota]
      by_cases h : a.type = AuthType.oauth <;> simp [h]
  · intro q hq
    cases auth with
    | none => exact absurd hq (by simp [fetchQuota])
    | some a =>
      refine ⟨a, rfl, ?_, ?_⟩
      · by_cases h : a.type = AuthType.oauth
        · exact h
        · exact absurd hq (by simp [fetchQuota, h])
      · by_cases h : a.type = AuthType.oauth
        · cases outcome with
          | transportError => exact absurd hq (by simp [fetchQuota, h])
          | response ok body =>
            cases ok with
            | false => exact absurd hq (by simp [fetchQuota, h])
            | true =>
              simp only [fetchQuota, h, if_true] at hq
              simp [hq]
        · exact absurd hq (by simp [fetchQuota, h])

/-- Witness for claim C8: a 2xx response with a parseable empty snapshot,
under an OAuth credential, is traced back to exactly that outcome. -/
theorem fetchQuota_never_throws_witness :
    ∃ a, (some { type := AuthType.oauth, accessToken := "tok" } : Option Auth) = some a ∧
      a.type = AuthType.oauth ∧
      (FetchOutcome.response true (some { five_hour := none, seven_day := none })
          : FetchOutcome) =
        FetchOutcome.response true (some { five_hour := none, seven_day := none }) :=
  (fetchQuota_never_throws (some { type := AuthType.oauth, accessToken := "tok" })
      (FetchOutcome.response true (some { five_hour := none, seven_day := none }))).2.2
    { five_hour := none, seven_day := none } rfl

/-! ## Claim C9 -/

/-- Claim C9: when the stats cache cannot be read, a non-watch render reports
the error and exits with status 1, and the startup check does the same when
the cache file is absent; in watch mode a failed render reports the error but
does not exit, and the watch loop processes every trigger (one render result
per trigger, never cut short by a failure). -/
theorem render_missing_cache_behavior :
    (∀ msg, render false (Except.error msg) =
      { status := ProcessStatus.exits 1, errorReported := true }) ∧
    startupCheck false = { status := ProcessStatus.exits 1, errorReported := true } ∧
    (∀ msg, render true (Except.error msg) =
      { status := ProcessStatus.continues, errorReported := true }) ∧
    (∀ reads, (watchLoop reads).length = reads.length) := by
  refine ⟨fun msg => rfl, rfl, fun msg => rfl, ?_⟩
  intro reads
  induction reads with
  | nil => rfl
  | cons r rs ih =>
    have hstat : (render true r).status = ProcessStatus.continues := by
      cases r with
      | ok d => rfl
      | error msg => rfl
    simp only [watchLoop]
    rw [hstat]
    simp [ih]
